import Mathlib

/-!
Verification development for the NFT acquisition-cost reconciliation core:
position/market-reference calculation (`getPositionLabel`,
`calculateDataQuality`), marketplace candidate deduplication and matching
(`loadItemDetails`), the transfer-history resolver
(`getNFTTransferHistory` and its consumer), and the purchase-timestamp
normalizer (`toIsoString`).

Numbers flowing through the position calculator are JavaScript numbers;
they are modelled as an extended rational type `JsNum` with an explicit
`nan` constructor and signed infinities, with the JS semantics of the
arithmetic and comparison operators the source uses (comparisons with
NaN are false, NaN propagates through arithmetic, `Math.max` returns NaN
if either argument is NaN). Binary-rounding of IEEE doubles is not
modelled; all finite values are exact rationals.
-/

/-!
The arithmetic operations on `ℚ` provided by Batteries (`Rat.add`,
`Rat.mul`, ...) are marked irreducible, which blocks kernel evaluation
(`decide`) on concrete inputs. The embedding therefore uses its own
kernel-reducible rational operations built on `mkRat`; the bridging
lemmas `rAdd_eq`, `rNeg_eq`, `rSub_eq`, `rDiv_eq`, `rAbs_eq`, `rMax_eq`
prove them equal to the standard field operations on `ℚ`.
-/

/-- Rational addition via `mkRat` (kernel-reducible). -/
def rAdd (a b : ℚ) : ℚ := mkRat (a.num * b.den + b.num * a.den) (a.den * b.den)

/-- Rational negation via `mkRat` (kernel-reducible). -/
def rNeg (a : ℚ) : ℚ := mkRat (-a.num) a.den

/-- Rational subtraction via `mkRat` (kernel-reducible). -/
def rSub (a b : ℚ) : ℚ := rAdd a (rNeg b)

/-- Rational division via `mkRat` (kernel-reducible); division by zero
gives zero, as in Mathlib. -/
def rDiv (a b : ℚ) : ℚ :=
  if 0 ≤ b.num then mkRat (a.num * b.den) (a.den * b.num.natAbs)
  else mkRat (-(a.num * b.den)) (a.den * b.num.natAbs)

/-- Rational absolute value via `mkRat` (kernel-reducible). -/
def rAbs (a : ℚ) : ℚ := mkRat |a.num| a.den

/-- Rational maximum (kernel-reducible). -/
def rMax (a b : ℚ) : ℚ := if a < b then b else a

/-- A JavaScript number: NaN, a signed infinity, or a finite value. -/
inductive JsNum where
  | nan : JsNum
  | inf (pos : Bool) : JsNum
  | fin (q : ℚ) : JsNum
deriving DecidableEq, Repr

namespace JsNum

/-- JS `isNaN`. -/
def isNaN : JsNum → Bool
  | nan => true
  | _ => false

/-- JS `<=` (false whenever either side is NaN). -/
def jle : JsNum → JsNum → Bool
  | nan, _ => false
  | _, nan => false
  | inf p, inf q => !p || q
  | inf p, fin _ => !p
  | fin _, inf q => q
  | fin a, fin b => decide (a ≤ b)

/-- JS `<` (false whenever either side is NaN). -/
def jlt : JsNum → JsNum → Bool
  | nan, _ => false
  | _, nan => false
  | inf p, inf q => !p && q
  | inf p, fin _ => !p
  | fin _, inf q => q
  | fin a, fin b => decide (a < b)

/-- JS `>=`. -/
def jge (a b : JsNum) : Bool := jle b a

/-- JS unary negation. -/
def jneg : JsNum → JsNum
  | nan => nan
  | inf p => inf (!p)
  | fin q => fin (rNeg q)

/-- JS addition. -/
def jadd : JsNum → JsNum → JsNum
  | nan, _ => nan
  | _, nan => nan
  | inf p, inf q => if p = q then inf p else nan
  | inf p, fin _ => inf p
  | fin _, inf q => inf q
  | fin a, fin b => fin (rAdd a b)

/-- JS subtraction. -/
def jsub (a b : JsNum) : JsNum := jadd a (jneg b)

/-- JS division (signed zeroes are not distinguished; the source never
divides by a negative-zero divisor: every divisor it uses is clamped by
`Math.max` with a positive epsilon). -/
def jdiv : JsNum → JsNum → JsNum
  | nan, _ => nan
  | _, nan => nan
  | inf _, inf _ => nan
  | inf p, fin q => if q < 0 then inf (!p) else inf p
  | fin _, inf _ => fin 0
  | fin a, fin b =>
      if b = 0 then (if a = 0 then nan else if a > 0 then inf true else inf false)
      else fin (rDiv a b)

/-- JS `Math.max` (NaN if either argument is NaN). -/
def jmax : JsNum → JsNum → JsNum
  | nan, _ => nan
  | _, nan => nan
  | inf p, inf q => inf (p || q)
  | inf p, fin a => if p then inf true else fin a
  | fin a, inf q => if q then inf true else fin a
  | fin a, fin b => fin (rMax a b)

/-- JS `Math.abs`. -/
def jabs : JsNum → JsNum
  | nan => nan
  | inf _ => inf true
  | fin q => fin (rAbs q)

end JsNum

/-- Position state of `getPositionLabel` (`PositionState` in the source). -/
inductive PositionState where
  | UP | DOWN | FLAT | NO_COST_BASIS | NO_MARKET_REF
deriving DecidableEq, Repr

/-- Data-quality level (`DataQualityLevel` in the source). -/
inductive DataQualityLevel where
  | strong | fair | limited
deriving DecidableEq, Repr

/-- Result record of `getPositionLabel` (`PositionLabelResult` in the
source); `none` models JS `null`. -/
structure PositionLabelResult where
  state : PositionState
  pnlPct : Option JsNum
  pnlGun : Option JsNum
  marketRefGun : Option JsNum
  dataQuality : Option DataQualityLevel
deriving DecidableEq, Repr

/-- Input record of `getPositionLabel` (`GetPositionLabelInput` in the
source); `none` models both JS `null` and `undefined`, which the source
treats identically. -/
structure GetPositionLabelInput where
  acquisitionPriceGun : Option JsNum
  priceLow : Option JsNum
  priceHigh : Option JsNum
deriving DecidableEq, Repr

/-- The source's validity check for the acquisition price:
`!== null && !== undefined && !isNaN && >= 0.000001`. -/
def hasValidAcquisitionCheck (a : Option JsNum) : Bool :=
  match a with
  | none => false
  | some v => !v.isNaN && v.jge (.fin (mkRat 1 1000000))

/-- The source's presence check for a listing bound:
`!== null && !== undefined && !isNaN && >= 0`. -/
def hasBoundCheck (b : Option JsNum) : Bool :=
  match b with
  | none => false
  | some v => !v.isNaN && v.jge (.fin 0)

/-- Embedding of the pure source function `getPositionLabel`.
`epsilon = 1e-9`; market reference is the midpoint of the bounds if both
pass `hasBoundCheck`, else the single passing bound, else null; data
quality is computed only when both bounds pass; state resolution is
NO_MARKET_REF, then NO_COST_BASIS, then the pnl deadband
(`|pnlPct| < 0.03` FLAT, `pnlPct >= 0.03` UP, else DOWN). -/
def getPositionLabel (input : GetPositionLabelInput) : PositionLabelResult :=
  let epsilon : JsNum := .fin (mkRat 1 1000000000)
  let hasValidAcquisition := hasValidAcquisitionCheck input.acquisitionPriceGun
  let hasLow := hasBoundCheck input.priceLow
  let hasHigh := hasBoundCheck input.priceHigh
  -- values are only inspected under the corresponding has* guard
  let lowV := input.priceLow.getD .nan
  let highV := input.priceHigh.getD .nan
  let marketRefGun : Option JsNum :=
    if hasLow && hasHigh then some ((lowV.jadd highV).jdiv (.fin 2))
    else if hasLow then some lowV
    else if hasHigh then some highV
    else none
  let dataQuality : Option DataQualityLevel :=
    if hasLow && hasHigh then
      let spreadRatio := (highV.jsub lowV).jdiv (lowV.jmax epsilon)
      if spreadRatio.jle (.fin (mkRat 1 4)) then some .strong
      else if spreadRatio.jle (.fin (mkRat 3 5)) then some .fair
      else some .limited
    else none
  match marketRefGun with
  | none =>
      { state := .NO_MARKET_REF, pnlPct := none, pnlGun := none,
        marketRefGun := none, dataQuality := none }
  | some mr =>
      if !hasValidAcquisition then
        { state := .NO_COST_BASIS, pnlPct := none, pnlGun := none,
          marketRefGun := some mr, dataQuality := dataQuality }
      else
        let acq := input.acquisitionPriceGun.getD .nan
        let pnlGun := mr.jsub acq
        let pnlPct := pnlGun.jdiv (acq.jmax epsilon)
        let state : PositionState :=
          if (pnlPct.jabs).jlt (.fin (mkRat 3 100)) then .FLAT
          else if pnlPct.jge (.fin (mkRat 3 100)) then .UP
          else .DOWN
        { state := state, pnlPct := some pnlPct, pnlGun := some pnlGun,
          marketRefGun := some mr, dataQuality := dataQuality }

/-- Embedding of the source helper `calculateDataQuality` (the separate
display-path helper): presence means `!== undefined`, epsilon is
`0.0001`, same spread thresholds. `none` in an argument models JS
`undefined`. -/
def calculateDataQuality (priceLow priceHigh : Option JsNum) :
    Option DataQualityLevel :=
  match priceLow, priceHigh with
  | some lo, some hi =>
      let epsilon : JsNum := .fin (mkRat 1 10000)
      let spreadRatio := (hi.jsub lo).jdiv (lo.jmax epsilon)
      if spreadRatio.jle (.fin (mkRat 1 4)) then some .strong
      else if spreadRatio.jle (.fin (mkRat 3 5)) then some .fair
      else some .limited
  | _, _ => none

/-!
## Marketplace purchase records, deduplication and matching

Embeds `MarketplacePurchase`, the merge-and-dedupe filter and the
matching algorithm of `loadItemDetails`. The `purchaseDateIso` string of
a record is modelled by the millisecond instant `purchaseDateMs` it
denotes (the source always consumes it through
`new Date(p.purchaseDateIso).getTime()`, and the marketplace client
produces it with `toIsoString`, which always yields a valid ISO string).
-/

/-- A marketplace purchase record (`MarketplacePurchase` in the source);
`none` models JS `undefined`. -/
structure MarketplacePurchase where
  purchaseId : String
  tokenKey : String
  buyerAddress : String
  priceGun : ℚ
  priceUsd : Option ℚ := none
  purchaseDateMs : Int
  txHash : Option String := none
  orderId : Option String := none
deriving DecidableEq, Repr

/-- JS truthiness on an optional string (`filter(Boolean)`): absent and
empty strings are dropped. -/
def truthyKey : Option String → Option String
  | none => none
  | some s => if s = "" then none else some s

/-- A dedup key. The source keeps all keys in one `Set<string>`;
`purchaseId`, `txHash` and `orderId` go in verbatim and so share one
namespace (`idKey`), while the composite template string
`` tokenKey:ms:price `` is modelled by the triple it renders, which the
rendering determines injectively (neither the millisecond count nor the
price rendering can contain a colon). A collision of a composite string
with a plain id string is theoretically possible in JS and not
modelled. -/
inductive DedupKey where
  | idKey (s : String)
  | comp (tokenKey : String) (ms : Int) (price : ℚ)
deriving DecidableEq, Repr

/-- The dedup keys of a record, in source order, after the truthiness
filter (the composite key is always truthy). -/
def purchaseKeys (p : MarketplacePurchase) : List DedupKey :=
  ((truthyKey (some p.purchaseId)).map .idKey).toList ++
    ((truthyKey p.txHash).map .idKey).toList ++
    ((truthyKey p.orderId).map .idKey).toList ++
    [.comp p.tokenKey p.purchaseDateMs p.priceGun]

/-- The dedup filter of `loadItemDetails` with the closure-captured
`seen` set: a record with any key already seen is dropped (registering
nothing); a kept record registers all its keys. -/
def dedupeAux : List MarketplacePurchase → List DedupKey → List MarketplacePurchase
  | [], _ => []
  | p :: rest, seen =>
      if (purchaseKeys p).any (fun k => decide (k ∈ seen)) then dedupeAux rest seen
      else p :: dedupeAux rest (seen ++ purchaseKeys p)

/-- The dedup pass: `allPurchases.filter(...)` with an initially empty
`seen` set. -/
def dedupePurchases (l : List MarketplacePurchase) : List MarketplacePurchase :=
  dedupeAux l []

/-- The source's `MarketplaceMatchMethod` (`'txHash' | 'timeWindow' |
'none'`). -/
inductive MatchMethod where
  | txHash | timeWindow | none
deriving DecidableEq, Repr

/-- Identity and timing context of the matching section of
`loadItemDetails`; the two addresses are the already-lowercased
`viewerWalletLower` and `currentOwnerLower`. -/
structure MatchContext where
  acquiredAtMs : Int
  viewerWalletLower : String
  currentOwnerLower : String
deriving DecidableEq, Repr

/-- The matching window: `TIME_WINDOW_MS = 10 * 60 * 1000`. -/
def TIME_WINDOW_MS : Int := 10 * 60 * 1000

/-- The time distance
`Math.abs(new Date(p.purchaseDateIso).getTime() - acquiredAt.getTime())`. -/
def timeDistMs (acquiredAtMs : Int) (p : MarketplacePurchase) : Int :=
  |p.purchaseDateMs - acquiredAtMs|

/-- The in-window filter predicate (`timeDiff <= TIME_WINDOW_MS`). -/
def inTimeWindow (ctx : MatchContext) (p : MarketplacePurchase) : Bool :=
  timeDistMs ctx.acquiredAtMs p ≤ TIME_WINDOW_MS

/-- ASCII lowercase of one character. -/
def lowerChar (c : Char) : Char :=
  if 'A' ≤ c ∧ c ≤ 'Z' then Char.ofNat (c.toNat + 32) else c

/-- ASCII lowercasing: the `toLowerCase()` the source applies to hex
addresses, which are ASCII (implemented over the character list; core
`String.toLower` does not reduce in the kernel). -/
def jsLowerAscii (s : String) : String := ⟨s.data.map lowerChar⟩

/-- The identity-tiebreak predicate (`buyerLower === viewerWalletLower
|| buyerLower === currentOwnerLower`). -/
def isIdentityMatch (ctx : MatchContext) (p : MarketplacePurchase) : Bool :=
  jsLowerAscii p.buyerAddress == ctx.viewerWalletLower ||
    jsLowerAscii p.buyerAddress == ctx.currentOwnerLower

/-- JS `list.reduce((closest, p) => pDiff < closestDiff ? p : closest)`:
keeps the earliest-listed element attaining the minimal time distance. -/
def closestByTime (acquiredAtMs : Int) :
    List MarketplacePurchase → Option MarketplacePurchase
  | [] => Option.none
  | h :: t =>
      some (t.foldl
        (fun closest p =>
          if timeDistMs acquiredAtMs p < timeDistMs acquiredAtMs closest then p
          else closest) h)

/-- The in-window candidate list (`candidatesInWindow` in the source). -/
def candidatesInWindow (ctx : MatchContext) (candidates : List MarketplacePurchase) :
    List MarketplacePurchase :=
  candidates.filter (inTimeWindow ctx)

/-- The identity-matching in-window candidates (`identityMatches` in the
source). -/
def identityMatchesOf (ctx : MatchContext) (candidates : List MarketplacePurchase) :
    List MarketplacePurchase :=
  (candidatesInWindow ctx candidates).filter (isIdentityMatch ctx)

/-- Embedding of the matching section of `loadItemDetails`. Priority 1
(exact transaction-hash match) is an inert placeholder in the source:
`matchedPurchase` is still null when Priority 2 starts, and the
acquisition transaction hash is not even passed into the comparison, so
the `txHash` method is never produced. -/
def matchPurchase (ctx : MatchContext) (candidates : List MarketplacePurchase) :
    Option MarketplacePurchase × MatchMethod :=
  let matchedPurchase : Option MarketplacePurchase := Option.none
  if matchedPurchase.isNone && decide (0 < candidates.length) then
    if (candidatesInWindow ctx candidates).length = 1 then
      ((candidatesInWindow ctx candidates).head?, .timeWindow)
    else if 1 < (candidatesInWindow ctx candidates).length then
      if 1 ≤ (identityMatchesOf ctx candidates).length then
        (closestByTime ctx.acquiredAtMs (identityMatchesOf ctx candidates), .timeWindow)
      else
        (closestByTime ctx.acquiredAtMs (candidatesInWindow ctx candidates), .timeWindow)
    else (Option.none, .none)
  else (Option.none, .none)

/-!
## Transfer-history resolver

Embeds the pure data flow of `getTransferEvents` /
`getNFTTransferHistory` (avalanche.ts) and the acquisition
classification of their consumer in `loadItemDetails`. External I/O
results are parameters: the raw transfer logs, the timestamp of the
first incoming block (absent if the block fetch failed), and the
outcome of the payment scan over the transaction receipt and value
(the detected outgoing token amount, if any).
-/

/-- A parsed ERC-721 Transfer event (the element shape produced by
`getTransferEvents`; `from`/`to` are topic-decoded and lowercased by the
parser). -/
structure TransferEvent where
  fromAddr : String
  toAddr : String
  blockNumber : Int
  logIndex : Int
  transactionHash : String
deriving DecidableEq, Repr

/-- The sort order of `queryLogsInChunks`: by `blockNumber`, then
`logIndex`. -/
def transferRel (a b : TransferEvent) : Prop :=
  a.blockNumber < b.blockNumber ∨
    (a.blockNumber = b.blockNumber ∧ a.logIndex ≤ b.logIndex)

instance : DecidableRel transferRel := fun a b => by
  unfold transferRel; infer_instance

/-- The final sort of `queryLogsInChunks` (JS `Array.prototype.sort` is
a stable sort by the comparator; any stable sort computes the same
list). -/
def sortTransferEvents (l : List TransferEvent) : List TransferEvent :=
  List.insertionSort transferRel l

/-- The canonical zero/burn address. -/
def zeroAddress : String := "0x0000000000000000000000000000000000000000"

/-- The fields of `getNFTTransferHistory`'s result that feed acquisition
classification. -/
structure TransferHistoryResult where
  totalLogsFound : Nat
  purchaseDateMs : Option Int
  transferredFrom : Option String
  isFreeTransfer : Bool
deriving DecidableEq, Repr

/-- Embedding of `getNFTTransferHistory`: sorts the raw logs, filters
incoming transfers (`to == walletLower`), takes the first as the
acquisition, and populates `transferredFrom` only when the transfer was
free AND not from the zero address. -/
def getNFTTransferHistory (rawLogs : List TransferEvent) (walletLower : String)
    (blockTimestampMs : Option Int) (detectedPaymentGun : Option ℚ) :
    TransferHistoryResult :=
  let events := sortTransferEvents rawLogs
  match events with
  | [] =>
      { totalLogsFound := 0, purchaseDateMs := Option.none,
        transferredFrom := Option.none, isFreeTransfer := true }
  | _ :: _ =>
      let incomingTransfers := events.filter (fun e => e.toAddr == walletLower)
      match incomingTransfers with
      | [] =>
          { totalLogsFound := events.length, purchaseDateMs := Option.none,
            transferredFrom := Option.none, isFreeTransfer := true }
      | firstIncoming :: _ =>
          let isFromZeroAddress := firstIncoming.fromAddr == zeroAddress
          let isFreeTransfer :=
            match detectedPaymentGun with
            | Option.none => true
            | some q => decide (q = 0)
          { totalLogsFound := events.length,
            purchaseDateMs := blockTimestampMs,
            transferredFrom :=
              if isFreeTransfer && !isFromZeroAddress then some firstIncoming.fromAddr
              else Option.none,
            isFreeTransfer := isFreeTransfer }

/-- The `AcquisitionType` union of the source. -/
inductive AcquisitionType where
  | MINT | TRANSFER | UNKNOWN
deriving DecidableEq, Repr

/-- The consumer-side classification in `loadItemDetails`: it re-derives
the zero-address check from `transferredFrom` (`fromAddress ===
'0x0000...0000'`; an `undefined` never equals the zero address). -/
def deriveAcquisitionType (th : TransferHistoryResult) : AcquisitionType :=
  let hasTransferData := decide (0 < th.totalLogsFound)
  let isFromZeroAddress := th.transferredFrom == some zeroAddress
  if isFromZeroAddress then .MINT
  else if hasTransferData then .TRANSFER
  else .UNKNOWN

/-!
## Purchase-timestamp normalizer (`toIsoString`, marketplace.ts)

The normalizer converts an arbitrary upstream value into an ISO
timestamp string, falling back on the current wall-clock time. The
model returns the millisecond instant that the produced ISO string
denotes (`toISOString` is an injective rendering of that instant and is
only ever called on a valid date). The host's string parser
(`new Date(string)`) is a parameter; `now` is the current wall-clock
instant in milliseconds.
-/

/-- Rational multiplication via `mkRat` (kernel-reducible). -/
def rMul (a b : ℚ) : ℚ := mkRat (a.num * b.num) (a.den * b.den)

/-- Truncation toward zero, as in the ECMAScript time-value clip. -/
def jsTruncQ (q : ℚ) : Int := if 0 ≤ q then ⌊q⌋ else ⌈q⌉

/-- The maximal absolute ECMAScript time value (8.64e15 ms). -/
def DATE_LIMIT_MS : ℚ := mkRat 8640000000000000 1

/-- The value of `new Date(msNumber).getTime()` for a non-NaN numeric argument:
invalid (NaN) beyond the clip limit, else the truncated instant. -/
def jsTimeClip (q : ℚ) : Option Int :=
  if rAbs q ≤ DATE_LIMIT_MS then some (jsTruncQ q) else Option.none

/-- A JS value reaching `toIsoString`. `strV` carries the raw string
(parsed by the host parser parameter); `dateV t` is a `Date` object
whose `getTime()` is `t` (`none` = invalid date); `objSeconds` is the
Firestore-style `{ seconds, ... }` shape; `otherObj` is any other
object or unrecognized shape. -/
inductive JsDateValue where
  | nullV
  | undefV
  | boolV (b : Bool)
  | nanNum
  | numV (q : ℚ)
  | strV (s : String)
  | dateV (t : Option Int)
  | objSeconds (seconds : ℚ)
  | otherObj
deriving DecidableEq, Repr

/-- JS falsiness (`!value`): null, undefined, false, NaN, 0 and the
empty string are falsy; every object (including an invalid `Date`) is
truthy. -/
def jsFalsy : JsDateValue → Bool
  | .nullV => true
  | .undefV => true
  | .boolV b => !b
  | .nanNum => true
  | .numV q => decide (q = 0)
  | .strV s => decide (s = "")
  | _ => false

/-- Embedding of `toIsoString` (marketplace.ts), as the millisecond
instant of the produced ISO string. `parse s` is the host result of
`new Date(s).getTime()` (`none` = NaN). -/
def toIsoString (parse : String → Option Int) (now : Int) (v : JsDateValue) : Int :=
  if jsFalsy v then now
  else
    match v with
    | .strV s => (parse s).getD now
    | .dateV t => t.getD now
    | .numV q =>
        let ms := if (mkRat 10000000000 1) < q then q else rMul q (mkRat 1000 1)
        (jsTimeClip ms).getD now
    | .objSeconds s => (jsTimeClip (rMul s (mkRat 1000 1))).getD now
    | _ => now

/-- JS `a || b` over the timestamp fields of an upstream purchase
record. -/
def jsOrDate (a b : JsDateValue) : JsDateValue := if jsFalsy a then b else a

/-- The `purchaseDateIso` assembly in the marketplace client:
`toIsoString(p.purchaseDate || p.timestamp || p.createdAt)`. -/
def purchaseDateIsoOf (parse : String → Option Int) (now : Int)
    (purchaseDate timestamp createdAt : JsDateValue) : Int :=
  toIsoString parse now (jsOrDate purchaseDate (jsOrDate timestamp createdAt))

/-!
## Characterization of `getPositionLabel`

Named forms of the intermediate values of `getPositionLabel`, a
structural equation, and spec-side predicates taken from the claims'
wording, with bridging lemmas to the source's checks.
-/

/-- The epsilon of `getPositionLabel` (`1e-9`). -/
def positionEpsilon : JsNum := .fin (mkRat 1 1000000000)

/-- The market reference computed inside `getPositionLabel`. -/
def marketRefOf (input : GetPositionLabelInput) : Option JsNum :=
  if hasBoundCheck input.priceLow && hasBoundCheck input.priceHigh then
    some (((input.priceLow.getD .nan).jadd (input.priceHigh.getD .nan)).jdiv (.fin 2))
  else if hasBoundCheck input.priceLow then some (input.priceLow.getD .nan)
  else if hasBoundCheck input.priceHigh then some (input.priceHigh.getD .nan)
  else Option.none

/-- The spread ratio computed inside `getPositionLabel`. -/
def spreadRatioOf (input : GetPositionLabelInput) : JsNum :=
  ((input.priceHigh.getD .nan).jsub (input.priceLow.getD .nan)).jdiv
    ((input.priceLow.getD .nan).jmax positionEpsilon)

/-- The spread classification thresholds (`<= 0.25` strong, `<= 0.60`
fair, else limited). -/
def spreadClassify (s : JsNum) : DataQualityLevel :=
  if s.jle (.fin (mkRat 1 4)) then .strong
  else if s.jle (.fin (mkRat 3 5)) then .fair
  else .limited

/-- The data quality computed inside `getPositionLabel`. -/
def dataQualityOf (input : GetPositionLabelInput) : Option DataQualityLevel :=
  if hasBoundCheck input.priceLow && hasBoundCheck input.priceHigh then
    some (spreadClassify (spreadRatioOf input))
  else Option.none

/-- The absolute pnl computed inside `getPositionLabel`. -/
def pnlGunOf (input : GetPositionLabelInput) : JsNum :=
  ((marketRefOf input).getD .nan).jsub (input.acquisitionPriceGun.getD .nan)

/-- The pnl ratio computed inside `getPositionLabel`. -/
def pnlPctOf (input : GetPositionLabelInput) : JsNum :=
  (pnlGunOf input).jdiv ((input.acquisitionPriceGun.getD .nan).jmax positionEpsilon)

/-- The deadband state classification of `getPositionLabel`. -/
def deadbandState (pnlPct : JsNum) : PositionState :=
  if pnlPct.jabs.jlt (.fin (mkRat 3 100)) then .FLAT
  else if pnlPct.jge (.fin (mkRat 3 100)) then .UP
  else .DOWN

/-- Spec-side absence of a listing bound, as C10 words it: null or
undefined, NaN, or strictly negative. -/
def specBoundAbsentB (b : Option JsNum) : Bool :=
  match b with
  | Option.none => true
  | some v => v.isNaN || v.jlt (.fin 0)

/-- Spec-side missing cost basis, as amended C3 words it: absent, NaN,
or below 0.000001. -/
def specAcqMissingB (a : Option JsNum) : Bool :=
  match a with
  | Option.none => true
  | some v => v.isNaN || v.jlt (.fin (mkRat 1 1000000))

/-- The claim's record-identity relation, after the amendment: two
records are the same purchase when they share a nonempty `purchaseId`,
a nonempty `txId`, a nonempty `orderId`, or the composite key of
(tokenKey, purchase instant in milliseconds, priceInGameCurrency). -/
def sharesDedupKeySpec (p r : MarketplacePurchase) : Prop :=
  (p.purchaseId = r.purchaseId ∧ p.purchaseId ≠ "") ∨
  (∃ t, p.txHash = some t ∧ r.txHash = some t ∧ t ≠ "") ∨
  (∃ o, p.orderId = some o ∧ r.orderId = some o ∧ o ≠ "") ∨
  (p.tokenKey = r.tokenKey ∧ p.purchaseDateMs = r.purchaseDateMs ∧
    p.priceGun = r.priceGun)

/-- The two records of the C7 counterexample: same tokenKey and price,
timestamps 800 ms apart within the same second, different purchase
ids. -/
def c7First : MarketplacePurchase :=
  { purchaseId := "pa", tokenKey := "gunz:0xcafe:7", buyerAddress := "0xb1",
    priceGun := 5, purchaseDateMs := 100, txHash := Option.none,
    orderId := Option.none }

/-- Second record of the C7 counterexample. -/
def c7Second : MarketplacePurchase :=
  { purchaseId := "pb", tokenKey := "gunz:0xcafe:7", buyerAddress := "0xb2",
    priceGun := 5, purchaseDateMs := 900, txHash := Option.none,
    orderId := Option.none }

/-- The matching context of the matcher counterexamples: acquisition at
instant 0, lowercased viewer and owner addresses. -/
def tieCtx : MatchContext :=
  { acquiredAtMs := 0, viewerWalletLower := "0xviewer",
    currentOwnerLower := "0xowner" }

/-- First tied candidate: purchaseId "pb", 60 s after acquisition, no
identity match. -/
def tieCand1 : MarketplacePurchase :=
  { purchaseId := "pb", tokenKey := "gunz:0xcafe:7", buyerAddress := "0xother1",
    priceGun := 5, purchaseDateMs := 60000, txHash := Option.none,
    orderId := Option.none }

/-- Second tied candidate: purchaseId "pa", 60 s before acquisition, no
identity match. -/
def tieCand2 : MarketplacePurchase :=
  { purchaseId := "pa", tokenKey := "gunz:0xcafe:7", buyerAddress := "0xother2",
    priceGun := 6, purchaseDateMs := -60000, txHash := Option.none,
    orderId := Option.none }

/-- The transaction hash of the acquisition in the C1 scenario; the
source never passes it into the matcher. -/
def c1AcqTxHash : String := "0xt1"

/-- The single candidate of the C1 scenario: its txHash equals the
acquisition's, but its timestamp is 20 minutes after the acquisition
(outside the ±10-minute window). -/
def c1Candidate : MarketplacePurchase :=
  { purchaseId := "p1", tokenKey := "gunz:0xcafe:7", buyerAddress := "0xviewer",
    priceGun := 5, purchaseDateMs := 1200000, txHash := some c1AcqTxHash,
    orderId := Option.none }

/-!
## Claim theorems: transfer-history resolver
-/

instance : IsTotal TransferEvent transferRel :=
  ⟨by intro a b; unfold transferRel; omega⟩

instance : IsTrans TransferEvent transferRel :=
  ⟨by intro a b c; unfold transferRel; omega⟩

/-- The raw log of the C4 mint scenario: a transfer from the zero
address to the wallet. -/
def c4MintLog : TransferEvent :=
  { fromAddr := "0x0000000000000000000000000000000000000000",
    toAddr := "0xwallet", blockNumber := 5, logIndex := 0,
    transactionHash := "0xminttx" }

theorem rAdd_eq (a b : ℚ) : rAdd a b = a + b := by
  rw [rAdd, Rat.mkRat_eq_div]
  conv_rhs => rw [← Rat.num_div_den a, ← Rat.num_div_den b]
  rw [div_add_div _ _ (by exact_mod_cast a.den_nz) (by exact_mod_cast b.den_nz)]
  push_cast
  ring_nf

theorem rNeg_eq (a : ℚ) : rNeg a = -a := by
  rw [rNeg, Rat.mkRat_eq_div]
  conv_rhs => rw [← Rat.num_div_den a]
  push_cast
  ring_nf

theorem rSub_eq (a b : ℚ) : rSub a b = a - b := by
  rw [rSub, rAdd_eq, rNeg_eq, sub_eq_add_neg]

theorem rDiv_eq (a b : ℚ) : rDiv a b = a / b := by
  have had : ((a.den : ℚ)) ≠ 0 := by exact_mod_cast a.den_nz
  have hbd : ((b.den : ℚ)) ≠ 0 := by exact_mod_cast b.den_nz
  rcases lt_trichotomy b.num 0 with hb | hb | hb
  · have hbq : (b.num : ℚ) ≠ 0 := by exact_mod_cast hb.ne
    rw [rDiv, if_neg (by omega), Rat.mkRat_eq_div]
    conv_rhs => rw [← Rat.num_div_den a, ← Rat.num_div_den b]
    push_cast [Int.cast_natAbs]
    rw [abs_of_neg (show (b.num : ℚ) < 0 by exact_mod_cast hb)]
    field_simp
  · rw [rDiv, if_pos (by omega)]
    have hb0 : b = 0 := by
      have := Rat.num_eq_zero.mp hb
      simpa using this
    simp [hb0, hb, Rat.mkRat_eq_div]
  · have hbq : (b.num : ℚ) ≠ 0 := by exact_mod_cast hb.ne.symm
    rw [rDiv, if_pos (by omega), Rat.mkRat_eq_div]
    conv_rhs => rw [← Rat.num_div_den a, ← Rat.num_div_den b]
    push_cast [Int.cast_natAbs]
    rw [abs_of_pos (show (0 : ℚ) < (b.num : ℚ) by exact_mod_cast hb)]
    field_simp

theorem rAbs_eq (a : ℚ) : rAbs a = |a| := by
  rw [rAbs, Rat.mkRat_eq_div]
  rcases abs_choice a with h | h <;> rw [h]
  · rcases abs_choice a.num with h2 | h2 <;> rw [h2]
    · exact Rat.num_div_den a
    · have : a.num ≤ 0 ∧ 0 ≤ a := by
        constructor
        · nlinarith [neg_nonneg.mp (h2 ▸ abs_nonneg a.num)]
        · exact h ▸ abs_nonneg a
      have hnum : a.num = 0 := by
        have := Rat.num_nonneg.mpr this.2
        omega
      have ha : a = 0 := by simpa using Rat.num_eq_zero.mp hnum
      simp [ha, hnum]
  · rcases abs_choice a.num with h2 | h2 <;> rw [h2]
    · have h1 : 0 ≤ a := by
        have := h2 ▸ abs_nonneg a.num
        exact Rat.num_nonneg.mp this
      have h3 : a ≤ 0 := by nlinarith [neg_nonneg.mp (h ▸ abs_nonneg a)]
      have ha : a = 0 := le_antisymm h3 h1
      simp [ha]
    · push_cast
      rw [neg_div, Rat.num_div_den]

theorem rMax_eq (a b : ℚ) : rMax a b = max a b := by
  rw [rMax]
  rcases lt_or_ge a b with h | h
  · rw [if_pos h, max_eq_right h.le]
  · rw [if_neg (not_lt.mpr h), max_eq_left h]

theorem rMul_eq (a b : ℚ) : rMul a b = a * b := by
  rw [rMul, Rat.mkRat_eq_div]
  conv_rhs => rw [← Rat.num_div_den a, ← Rat.num_div_den b]
  push_cast
  rw [div_mul_div_comm]

/-- Structural equation for `getPositionLabel` in terms of the named
intermediate values. -/
theorem getPositionLabel_eq (input : GetPositionLabelInput) :
    getPositionLabel input =
      match marketRefOf input with
      | Option.none =>
          ⟨.NO_MARKET_REF, Option.none, Option.none, Option.none, Option.none⟩
      | some mr =>
          if !hasValidAcquisitionCheck input.acquisitionPriceGun then
            ⟨.NO_COST_BASIS, Option.none, Option.none, some mr, dataQualityOf input⟩
          else
            ⟨deadbandState (pnlPctOf input), some (pnlPctOf input),
              some (pnlGunOf input), some mr, dataQualityOf input⟩ := by
  cases h1 : hasBoundCheck input.priceLow <;>
    cases h2 : hasBoundCheck input.priceHigh <;>
      cases h3 : hasValidAcquisitionCheck input.acquisitionPriceGun <;>
        simp [getPositionLabel, marketRefOf, dataQualityOf, deadbandState,
          pnlPctOf, pnlGunOf, spreadRatioOf, spreadClassify, positionEpsilon,
          h1, h2, h3] <;>
        (try (split_ifs <;> rfl))

/-- The source's bound presence check agrees with the spec-side absence
predicate. -/
theorem hasBoundCheck_eq (b : Option JsNum) :
    hasBoundCheck b = !specBoundAbsentB b := by
  cases b with
  | none => rfl
  | some v =>
      cases v with
      | nan => rfl
      | inf p => cases p <;> rfl
      | fin q =>
          simp only [hasBoundCheck, specBoundAbsentB, JsNum.isNaN, JsNum.jge,
            JsNum.jle, JsNum.jlt]
          rcases le_or_lt 0 q with h | h
          · simp [h, not_lt.mpr h]
          · simp [h, not_le.mpr h]

/-- The source's acquisition validity check agrees with the spec-side
missing-cost-basis predicate. -/
theorem hasValidAcquisitionCheck_eq (a : Option JsNum) :
    hasValidAcquisitionCheck a = !specAcqMissingB a := by
  cases a with
  | none => rfl
  | some v =>
      cases v with
      | nan => rfl
      | inf p => cases p <;> rfl
      | fin q =>
          simp only [hasValidAcquisitionCheck, specAcqMissingB, JsNum.isNaN,
            JsNum.jge, JsNum.jle, JsNum.jlt]
          rcases le_or_lt (mkRat 1 1000000) q with h | h
          · simp [h, not_lt.mpr h]
          · simp [h, not_le.mpr h]

/-- The market reference `marketRefOf` is null exactly when both bound
checks fail. -/
theorem marketRefOf_eq_none_iff (input : GetPositionLabelInput) :
    marketRefOf input = Option.none ↔
      (hasBoundCheck input.priceLow = false ∧
        hasBoundCheck input.priceHigh = false) := by
  unfold marketRefOf
  cases h1 : hasBoundCheck input.priceLow <;>
    cases h2 : hasBoundCheck input.priceHigh <;> simp [h1, h2]

/-- The deadband state is never one of the missing-data states. -/
theorem deadbandState_ne (p : JsNum) :
    deadbandState p ≠ .NO_MARKET_REF ∧ deadbandState p ≠ .NO_COST_BASIS := by
  unfold deadbandState
  split_ifs <;> simp

/-- The reported market reference is always `marketRefOf`. -/
theorem getPositionLabel_marketRefGun (input : GetPositionLabelInput) :
    (getPositionLabel input).marketRefGun = marketRefOf input := by
  rw [getPositionLabel_eq]
  rcases h : marketRefOf input with _ | mr
  · simp
  · split_ifs <;> rfl

/-- The reported data quality is always `dataQualityOf`. -/
theorem getPositionLabel_dataQuality (input : GetPositionLabelInput) :
    (getPositionLabel input).dataQuality = dataQualityOf input := by
  rw [getPositionLabel_eq]
  rcases h : marketRefOf input with _ | mr
  · have hb := (marketRefOf_eq_none_iff input).mp h
    simp [dataQualityOf, hb.1]
  · split_ifs <;> rfl

/-- C3 counterexample: with both bounds 100 (market reference present)
and acquisition price +Infinity — a number that is not finite — the
state is DOWN (the pnl ratio evaluates to NaN and falls through to the
final else), not NO_COST_BASIS as the claim requires for a non-finite
acquisition price. -/
theorem C3_state_order_counterexample :
    (getPositionLabel ⟨some (.inf true), some (.fin 100), some (.fin 100)⟩).state
        = .DOWN ∧
    (getPositionLabel ⟨some (.inf true), some (.fin 100), some (.fin 100)⟩).state
        ≠ .NO_COST_BASIS := by
  decide

/-- C3 (amended): the state is resolved in order — NO_MARKET_REF (with
no pnl fields) exactly when the market reference is null; otherwise
NO_COST_BASIS (with marketReference still reported) exactly when the
acquisition price is absent, NaN, or below 0.000001; otherwise, with
pnlAbsolute = marketReference − acquisitionPrice and pnlRatio =
pnlAbsolute / max(acquisitionPrice, ε), the state is FLAT when
|pnlRatio| < 0.03, UP when pnlRatio ≥ 0.03, and DOWN otherwise. -/
theorem C3_state_order (input : GetPositionLabelInput) :
    ((getPositionLabel input).state = .NO_MARKET_REF ↔
      marketRefOf input = Option.none) ∧
    ((getPositionLabel input).state = .NO_MARKET_REF →
      (getPositionLabel input).pnlPct = Option.none ∧
        (getPositionLabel input).pnlGun = Option.none) ∧
    (marketRefOf input ≠ Option.none →
      ((getPositionLabel input).state = .NO_COST_BASIS ↔
        specAcqMissingB input.acquisitionPriceGun = true)) ∧
    (marketRefOf input ≠ Option.none →
      (getPositionLabel input).marketRefGun = marketRefOf input) ∧
    (marketRefOf input ≠ Option.none →
      specAcqMissingB input.acquisitionPriceGun = false →
      (getPositionLabel input).pnlGun = some (pnlGunOf input) ∧
      (getPositionLabel input).pnlPct = some (pnlPctOf input) ∧
      (getPositionLabel input).state =
        (if (pnlPctOf input).jabs.jlt (.fin (mkRat 3 100)) = true then .FLAT
         else if (pnlPctOf input).jge (.fin (mkRat 3 100)) = true then .UP
         else .DOWN)) := by
  have hval := hasValidAcquisitionCheck_eq input.acquisitionPriceGun
  rcases hmr : marketRefOf input with _ | mr
  · simp [getPositionLabel_eq, hmr]
  · cases hmiss : specAcqMissingB input.acquisitionPriceGun
    · rw [hmiss] at hval
      have hne := deadbandState_ne (pnlPctOf input)
      refine ⟨?_, ?_, ?_, ?_, ?_⟩
      · simp [getPositionLabel_eq, hmr, hval, hne.1]
      · simp [getPositionLabel_eq, hmr, hval, hne.1]
      · intro _
        simp [getPositionLabel_eq, hmr, hval, hmiss, hne.2]
      · intro _
        simp [getPositionLabel_eq, hmr, hval]
      · intro _ _
        refine ⟨?_, ?_, ?_⟩ <;>
          simp [getPositionLabel_eq, hmr, hval, deadbandState]
    · rw [hmiss] at hval
      simp [getPositionLabel_eq, hmr, hval, hmiss]

/-- Witness for `C3_state_order`: a present market reference with an
absent acquisition price yields NO_COST_BASIS. -/
theorem C3_state_order_witness :
    (getPositionLabel ⟨Option.none, some (.fin 100), some (.fin 200)⟩).state
      = .NO_COST_BASIS :=
  ((C3_state_order ⟨Option.none, some (.fin 100), some (.fin 200)⟩).2.2.1
    (by decide)).mpr (by decide)

/-- C5: the market reference is the midpoint `(low + high) / 2` when
both bounds are present, the single present bound when exactly one is
present, and null when neither is present (presence as in C10: a
non-NaN, non-negative number). -/
theorem C5_market_reference (input : GetPositionLabelInput) :
    (∀ lv hv, input.priceLow = some lv → input.priceHigh = some hv →
      specBoundAbsentB input.priceLow = false →
      specBoundAbsentB input.priceHigh = false →
      (getPositionLabel input).marketRefGun = some ((lv.jadd hv).jdiv (.fin 2))) ∧
    (∀ lv, input.priceLow = some lv →
      specBoundAbsentB input.priceLow = false →
      specBoundAbsentB input.priceHigh = true →
      (getPositionLabel input).marketRefGun = some lv) ∧
    (∀ hv, input.priceHigh = some hv →
      specBoundAbsentB input.priceHigh = false →
      specBoundAbsentB input.priceLow = true →
      (getPositionLabel input).marketRefGun = some hv) ∧
    (specBoundAbsentB input.priceLow = true →
      specBoundAbsentB input.priceHigh = true →
      (getPositionLabel input).marketRefGun = Option.none) := by
  have hl := hasBoundCheck_eq input.priceLow
  have hh := hasBoundCheck_eq input.priceHigh
  refine ⟨?_, ?_, ?_, ?_⟩
  · intro lv hv hleq hheq hal hah
    rw [hal] at hl; rw [hah] at hh; rw [hleq] at hl; rw [hheq] at hh
    simp [getPositionLabel_marketRefGun, marketRefOf, hleq, hheq, hl, hh]
  · intro lv hleq hal hah
    rw [hal] at hl; rw [hah] at hh; rw [hleq] at hl
    simp [getPositionLabel_marketRefGun, marketRefOf, hleq, hl, hh]
  · intro hv hheq hah hal
    rw [hal] at hl; rw [hah] at hh; rw [hheq] at hh
    simp [getPositionLabel_marketRefGun, marketRefOf, hheq, hl, hh]
  · intro hal hah
    rw [hal] at hl; rw [hah] at hh
    simp [getPositionLabel_marketRefGun, marketRefOf, hl, hh]

/-- Witness for `C5_market_reference`: bounds 100 and 200 give market
reference 150. -/
theorem C5_market_reference_witness :
    (getPositionLabel ⟨Option.none, some (.fin 100), some (.fin 200)⟩).marketRefGun
      = some (.fin (mkRat 150 1)) := by
  have h :=
    (C5_market_reference ⟨Option.none, some (.fin 100), some (.fin 200)⟩).1
      (.fin 100) (.fin 200) rfl rfl (by decide) (by decide)
  rw [h]
  decide

/-- C6: the data quality is non-null exactly when both bounds are
present, and is then the spread classification of
`(high - low) / max(low, 1e-9)` (STRONG ≤ 0.25 < FAIR ≤ 0.60 <
LIMITED); in particular low 90, high 110 gives spread ratio 2/9 ≈ 0.222
and STRONG. -/
theorem C6_data_quality (input : GetPositionLabelInput) :
    ((getPositionLabel input).dataQuality ≠ Option.none ↔
      (specBoundAbsentB input.priceLow = false ∧
        specBoundAbsentB input.priceHigh = false)) ∧
    (∀ lv hv, input.priceLow = some lv → input.priceHigh = some hv →
      specBoundAbsentB input.priceLow = false →
      specBoundAbsentB input.priceHigh = false →
      (getPositionLabel input).dataQuality =
        some (spreadClassify
          ((hv.jsub lv).jdiv (lv.jmax (.fin (mkRat 1 1000000000)))))) ∧
    ((getPositionLabel ⟨some (.fin 100), some (.fin 90), some (.fin 110)⟩).dataQuality
        = some .strong ∧
      spreadRatioOf ⟨some (.fin 100), some (.fin 90), some (.fin 110)⟩
        = .fin (mkRat 2 9)) := by
  have hl := hasBoundCheck_eq input.priceLow
  have hh := hasBoundCheck_eq input.priceHigh
  refine ⟨?_, ?_, by decide⟩
  · rw [getPositionLabel_dataQuality, dataQualityOf, hl, hh]
    cases hal : specBoundAbsentB input.priceLow <;>
      cases hah : specBoundAbsentB input.priceHigh <;> simp
  · intro lv hv hleq hheq hal hah
    rw [hal] at hl; rw [hah] at hh; rw [hleq] at hl; rw [hheq] at hh
    simp [getPositionLabel_dataQuality, dataQualityOf, spreadRatioOf,
      positionEpsilon, hleq, hheq, hl, hh]

/-- Witness for `C6_data_quality`: low 90, high 110 yields STRONG via
the spread classification. -/
theorem C6_data_quality_witness :
    (getPositionLabel ⟨some (.fin 100), some (.fin 90), some (.fin 110)⟩).dataQuality
      = some (spreadClassify
          (((JsNum.fin 110).jsub (.fin 90)).jdiv
            ((JsNum.fin 90).jmax (.fin (mkRat 1 1000000000))))) :=
  (C6_data_quality ⟨some (.fin 100), some (.fin 90), some (.fin 110)⟩).2.1
    (.fin 90) (.fin 110) rfl rfl (by decide) (by decide)

/-- The bound check fails on an absent bound. -/
theorem hasBoundCheck_none : hasBoundCheck Option.none = false := rfl

/-- C10: a listing bound that is null/undefined, NaN or strictly
negative is treated as absent — replacing it by null does not change
the result at all; an input whose only supplied bound is negative
yields NO_MARKET_REF with null data quality; and the data quality is
non-null only when both bounds are non-NaN numbers ≥ 0. -/
theorem C10_absent_bounds (input : GetPositionLabelInput) :
    (specBoundAbsentB input.priceLow = true →
      getPositionLabel input =
        getPositionLabel
          ⟨input.acquisitionPriceGun, Option.none, input.priceHigh⟩) ∧
    (specBoundAbsentB input.priceHigh = true →
      getPositionLabel input =
        getPositionLabel
          ⟨input.acquisitionPriceGun, input.priceLow, Option.none⟩) ∧
    (∀ q : ℚ, q < 0 →
      (getPositionLabel
          ⟨input.acquisitionPriceGun, some (.fin q), Option.none⟩).state
          = .NO_MARKET_REF ∧
      (getPositionLabel
          ⟨input.acquisitionPriceGun, some (.fin q), Option.none⟩).dataQuality
          = Option.none) ∧
    ((getPositionLabel input).dataQuality ≠ Option.none →
      specBoundAbsentB input.priceLow = false ∧
        specBoundAbsentB input.priceHigh = false) := by
  obtain ⟨a, pl, ph⟩ := input
  have hl := hasBoundCheck_eq pl
  have hh := hasBoundCheck_eq ph
  refine ⟨?_, ?_, ?_, ?_⟩
  · intro hal
    rw [hal] at hl
    have hmr : marketRefOf ⟨a, pl, ph⟩ = marketRefOf ⟨a, Option.none, ph⟩ := by
      simp [marketRefOf, hl, hasBoundCheck_none]
    have hdq : dataQualityOf ⟨a, pl, ph⟩ = dataQualityOf ⟨a, Option.none, ph⟩ := by
      simp [dataQualityOf, hl, hasBoundCheck_none]
    have hpg : pnlGunOf ⟨a, pl, ph⟩ = pnlGunOf ⟨a, Option.none, ph⟩ := by
      simp [pnlGunOf, hmr]
    have hpp : pnlPctOf ⟨a, pl, ph⟩ = pnlPctOf ⟨a, Option.none, ph⟩ := by
      simp [pnlPctOf, hpg]
    rw [getPositionLabel_eq, getPositionLabel_eq, ← hmr, ← hdq, ← hpg, ← hpp]
  · intro hah
    rw [hah] at hh
    have hmr : marketRefOf ⟨a, pl, ph⟩ = marketRefOf ⟨a, pl, Option.none⟩ := by
      simp [marketRefOf, hh, hasBoundCheck_none]
    have hdq : dataQualityOf ⟨a, pl, ph⟩ = dataQualityOf ⟨a, pl, Option.none⟩ := by
      simp [dataQualityOf, hh, hasBoundCheck_none]
    have hpg : pnlGunOf ⟨a, pl, ph⟩ = pnlGunOf ⟨a, pl, Option.none⟩ := by
      simp [pnlGunOf, hmr]
    have hpp : pnlPctOf ⟨a, pl, ph⟩ = pnlPctOf ⟨a, pl, Option.none⟩ := by
      simp [pnlPctOf, hpg]
    rw [getPositionLabel_eq, getPositionLabel_eq, ← hmr, ← hdq, ← hpg, ← hpp]
  · intro q hq
    have hge : ((JsNum.fin q).jge (JsNum.fin 0)) = false := by
      simp [JsNum.jge, JsNum.jle]
      exact hq
    have hb : hasBoundCheck (some (JsNum.fin q)) = false := by
      simp [hasBoundCheck, hge]
    have hmr : marketRefOf ⟨a, some (.fin q), Option.none⟩ = Option.none := by
      simp [marketRefOf, hb, hasBoundCheck_none]
    constructor <;> rw [getPositionLabel_eq] <;> simp [hmr]
  · intro hdq
    rw [getPositionLabel_dataQuality, dataQualityOf] at hdq
    simp only at hl hh hdq
    rw [hl, hh] at hdq
    cases hal : specBoundAbsentB pl <;>
      cases hah : specBoundAbsentB ph <;>
        rw [hal, hah] at hdq <;> simp_all

/-- Witness for `C10_absent_bounds`: a single supplied bound of -5
yields NO_MARKET_REF. -/
theorem C10_absent_bounds_witness :
    (getPositionLabel
        ⟨some (.fin 100), some (.fin (mkRat (-5) 1)), Option.none⟩).state
      = .NO_MARKET_REF :=
  ((C10_absent_bounds
      ⟨some (.fin 100), some (.fin (mkRat (-5) 1)), Option.none⟩).2.2.1
    (mkRat (-5) 1) (by decide)).1

/-!
## Claim theorems: deduplication
-/

/-- Every record surviving `dedupeAux l seen` has all its keys outside
`seen` (a dropped record registers nothing; a kept one was checked
against `seen` first). -/
theorem dedupeAux_keys_not_seen (l : List MarketplacePurchase) :
    ∀ (seen : List DedupKey) (p : MarketplacePurchase),
      p ∈ dedupeAux l seen → ∀ k ∈ purchaseKeys p, k ∉ seen := by
  induction l with
  | nil => intro seen p hp; simp [dedupeAux] at hp
  | cons q rest ih =>
      intro seen p hp k hk
      rw [dedupeAux] at hp
      split at hp
      · exact ih seen p hp k hk
      · next h =>
          simp only [List.any_eq_true, decide_eq_true_eq, not_exists, not_and] at h
          rcases List.mem_cons.mp hp with rfl | hp'
          · exact h k hk
          · intro hks
            exact (ih _ p hp' k hk) (List.mem_append.mpr (Or.inl hks))

/-- The records kept by `dedupeAux` carry pairwise-disjoint key sets. -/
theorem dedupeAux_pairwise (l : List MarketplacePurchase) :
    ∀ seen : List DedupKey,
      List.Pairwise (fun p r => ∀ k ∈ purchaseKeys p, k ∉ purchaseKeys r)
        (dedupeAux l seen) := by
  induction l with
  | nil => intro seen; simp [dedupeAux]
  | cons q rest ih =>
      intro seen
      rw [dedupeAux]
      split
      · exact ih seen
      · refine List.Pairwise.cons ?_ (ih _)
        intro r hr k hkq hkr
        exact (dedupeAux_keys_not_seen rest _ r hr k hkr)
          (List.mem_append.mpr (Or.inr hkq))

/-- On a list whose records have keys outside `seen` and pairwise
disjoint key sets, `dedupeAux` keeps everything. -/
theorem dedupeAux_id (l : List MarketplacePurchase) :
    ∀ seen : List DedupKey,
      (∀ p ∈ l, ∀ k ∈ purchaseKeys p, k ∉ seen) →
      List.Pairwise (fun p r => ∀ k ∈ purchaseKeys p, k ∉ purchaseKeys r) l →
      dedupeAux l seen = l := by
  induction l with
  | nil => intro seen _ _; rfl
  | cons q rest ih =>
      intro seen hseen hpw
      rw [dedupeAux]
      rw [if_neg ?_]
      · rw [ih (seen ++ purchaseKeys q) ?_ (List.Pairwise.of_cons hpw)]
        intro p hp k hk
        rw [List.mem_append]
        rintro (hs | hq)
        · exact hseen p (List.mem_cons_of_mem _ hp) k hk hs
        · exact (List.rel_of_pairwise_cons hpw hp) k hq hk
      · simp only [List.any_eq_true, decide_eq_true_eq, not_exists, not_and]
        intro k hk
        exact hseen q (List.mem_cons_self q rest) k hk

/-- The dedup filter only removes records (its output is a sublist of
its input). -/
theorem dedupeAux_sublist (l : List MarketplacePurchase) :
    ∀ seen : List DedupKey, (dedupeAux l seen).Sublist l := by
  induction l with
  | nil => intro seen; simp [dedupeAux]
  | cons q rest ih =>
      intro seen
      rw [dedupeAux]
      split
      · exact (ih seen).trans (List.sublist_cons_self q rest)
      · exact List.Sublist.cons₂ q (ih _)

/-- C8: deduplication is idempotent. -/
theorem C8_dedupe_idempotent (l : List MarketplacePurchase) :
    dedupePurchases (dedupePurchases l) = dedupePurchases l := by
  unfold dedupePurchases
  exact dedupeAux_id _ _ (by intro p _ k _ h; simp at h) (dedupeAux_pairwise l [])

/-- Records related by `sharesDedupKeySpec` share a dedup key. -/
theorem sharesDedupKeySpec_common_key {p r : MarketplacePurchase}
    (h : sharesDedupKeySpec p r) :
    ∃ k, k ∈ purchaseKeys p ∧ k ∈ purchaseKeys r := by
  rcases h with ⟨hpid, hne⟩ | ⟨t, hpt, hrt, hne⟩ | ⟨o, hpo, hro, hne⟩ | ⟨ht, hm, hp⟩
  · refine ⟨.idKey p.purchaseId, ?_, ?_⟩
    · simp [purchaseKeys, truthyKey, hne]
    · have hne' : r.purchaseId ≠ "" := hpid ▸ hne
      rw [hpid]
      simp [purchaseKeys, truthyKey, hne']
  · refine ⟨.idKey t, ?_, ?_⟩ <;>
      simp [purchaseKeys, truthyKey, hpt, hrt, hne]
  · refine ⟨.idKey o, ?_, ?_⟩ <;>
      simp [purchaseKeys, truthyKey, hpo, hro, hne]
  · refine ⟨.comp p.tokenKey p.purchaseDateMs p.priceGun, ?_, ?_⟩ <;>
      simp [purchaseKeys, ht, hm, hp]

/-- C7 (amended): the deduplicated output is a sublist of the input in
which no two records share a nonempty purchaseId, txId or orderId, or
the composite key of (tokenKey, millisecond purchase instant,
priceInGameCurrency); consequently no input pair sharing such a key
survives in full. -/
theorem C7_dedupe_no_shared_keys (l : List MarketplacePurchase) :
    (dedupePurchases l).Sublist l ∧
    List.Pairwise (fun p r => ¬ sharesDedupKeySpec p r) (dedupePurchases l) := by
  refine ⟨dedupeAux_sublist l [], ?_⟩
  refine (dedupeAux_pairwise l []).imp ?_
  intro p r hdisj hshare
  rcases sharesDedupKeySpec_common_key hshare with ⟨k, hkp, hkr⟩
  exact hdisj k hkp hkr

/-- C7 counterexample: two distinct records sharing the claim's
composite key truncated to the second (same tokenKey, same price, same
second — instants 100 ms and 900 ms) both survive dedup, because the
source keys the composite on the millisecond instant, not the
second. -/
theorem C7_dedupe_counterexample :
    dedupePurchases [c7First, c7Second] = [c7First, c7Second] ∧
    c7First.tokenKey = c7Second.tokenKey ∧
    c7First.priceGun = c7Second.priceGun ∧
    c7First.purchaseDateMs / 1000 = c7Second.purchaseDateMs / 1000 ∧
    c7First ≠ c7Second := by
  decide

/-!
## Claim theorems: acquisition matcher
-/

/-- The JS `reduce`-style minimum selects a list element attaining the
minimal time distance (the earliest-listed one on ties, since the
comparison is strict). -/
theorem foldl_closest_spec (acq : Int) :
    ∀ (t : List MarketplacePurchase) (h : MarketplacePurchase),
      (t.foldl (fun closest p =>
        if timeDistMs acq p < timeDistMs acq closest then p else closest) h)
          ∈ h :: t ∧
      ∀ c ∈ h :: t,
        timeDistMs acq (t.foldl (fun closest p =>
          if timeDistMs acq p < timeDistMs acq closest then p else closest) h) ≤
          timeDistMs acq c := by
  intro t
  induction t with
  | nil =>
      intro h
      refine ⟨List.mem_cons_self h [], ?_⟩
      intro c hc
      rcases List.mem_cons.mp hc with rfl | hc
      · exact le_refl _
      · simp at hc
  | cons p rest ih =>
      intro h
      rw [List.foldl_cons]
      rcases lt_or_ge (timeDistMs acq p) (timeDistMs acq h) with hlt | hle
      · rw [if_pos hlt]
        obtain ⟨hmem, hmin⟩ := ih p
        refine ⟨?_, ?_⟩
        · rcases List.mem_cons.mp hmem with hm | hm
          · rw [hm]
            exact List.mem_cons_of_mem h (List.mem_cons_self p rest)
          · exact List.mem_cons_of_mem h (List.mem_cons_of_mem p hm)
        · intro c hc
          rcases List.mem_cons.mp hc with rfl | hc'
          · exact le_trans (hmin p (List.mem_cons_self p rest)) hlt.le
          · exact hmin c hc'
      · rw [if_neg (not_lt.mpr hle)]
        obtain ⟨hmem, hmin⟩ := ih h
        refine ⟨?_, ?_⟩
        · rcases List.mem_cons.mp hmem with hm | hm
          · rw [hm]
            exact List.mem_cons_self h (p :: rest)
          · exact List.mem_cons_of_mem h (List.mem_cons_of_mem p hm)
        · intro c hc
          rcases List.mem_cons.mp hc with rfl | hc'
          · exact hmin c (List.mem_cons_self c rest)
          · rcases List.mem_cons.mp hc' with rfl | hc''
            · exact le_trans (hmin h (List.mem_cons_self h rest)) hle
            · exact hmin c (List.mem_cons_of_mem h hc'')

/-- On a nonempty list `closestByTime` returns a member of minimal time
distance. -/
theorem closestByTime_spec (acq : Int) (l : List MarketplacePurchase)
    (hne : l ≠ []) :
    ∃ m, closestByTime acq l = some m ∧ m ∈ l ∧
      ∀ c ∈ l, timeDistMs acq m ≤ timeDistMs acq c := by
  rcases l with _ | ⟨h, t⟩
  · exact absurd rfl hne
  · obtain ⟨hmem, hmin⟩ := foldl_closest_spec acq t h
    exact ⟨_, rfl, hmem, hmin⟩

/-- C2 (amended): with two or more in-window candidates the matcher
returns, with method timeWindow, an in-window candidate; when at least
one in-window candidate is an identity match the winner is an identity
match of minimal absolute time distance among the identity matches;
otherwise the winner has minimal absolute time distance among all
in-window candidates. Ties on time distance are broken by position in
the merged candidate list (the strict `reduce` comparison keeps the
earlier entry), not by purchaseId, so the selected purchase may depend
on the candidate order. -/
theorem C2_time_window_tiebreak (ctx : MatchContext)
    (cands : List MarketplacePurchase)
    (h2 : 2 ≤ (candidatesInWindow ctx cands).length) :
    ∃ m, matchPurchase ctx cands = (some m, .timeWindow) ∧
      m ∈ candidatesInWindow ctx cands ∧
      (identityMatchesOf ctx cands ≠ [] →
        m ∈ identityMatchesOf ctx cands ∧
        ∀ c ∈ identityMatchesOf ctx cands,
          timeDistMs ctx.acquiredAtMs m ≤ timeDistMs ctx.acquiredAtMs c) ∧
      (identityMatchesOf ctx cands = [] →
        ∀ c ∈ candidatesInWindow ctx cands,
          timeDistMs ctx.acquiredAtMs m ≤ timeDistMs ctx.acquiredAtMs c) := by
  have hlen : 0 < cands.length := by
    rcases cands with _ | ⟨c0, cs⟩
    · simp [candidatesInWindow] at h2
    · simp
  have hne1 : ¬ (candidatesInWindow ctx cands).length = 1 := by omega
  have hgt1 : 1 < (candidatesInWindow ctx cands).length := by omega
  simp only [matchPurchase, Option.isNone_none, Bool.true_and]
  rw [if_pos (by simpa using hlen), if_neg hne1, if_pos hgt1]
  by_cases hid : identityMatchesOf ctx cands = []
  · rw [if_neg (by simp [hid])]
    have hwne : candidatesInWindow ctx cands ≠ [] := by
      intro h
      rw [h] at h2
      simp at h2
    obtain ⟨m, hm, hmem, hmin⟩ := closestByTime_spec ctx.acquiredAtMs _ hwne
    exact ⟨m, by rw [hm], hmem, fun hcon => absurd hid hcon, fun _ => hmin⟩
  · have hidlen : 1 ≤ (identityMatchesOf ctx cands).length := by
      rcases hl : identityMatchesOf ctx cands with _ | ⟨x, xs⟩
      · exact absurd hl hid
      · simp
    rw [if_pos hidlen]
    obtain ⟨m, hm, hmem, hmin⟩ := closestByTime_spec ctx.acquiredAtMs _ hid
    refine ⟨m, by rw [hm], ?_, fun _ => ⟨hmem, hmin⟩, fun h => absurd h hid⟩
    exact List.mem_of_mem_filter
      (show m ∈ (candidatesInWindow ctx cands).filter (isIdentityMatch ctx) from hmem)

/-- C2 counterexample: two in-window candidates at equal absolute time
distance. The matcher returns whichever is listed first, so the two
permutations of the same candidate list produce different matched
purchases — and the winner for the order `[pb, pa]` is the one with the
larger purchaseId, contradicting the claimed `(identityMatch desc,
timeDistance asc, purchaseId asc)` ordering as well as the claimed
permutation invariance. -/
theorem C2_time_window_tiebreak_counterexample :
    matchPurchase tieCtx [tieCand1, tieCand2] = (some tieCand1, .timeWindow) ∧
    matchPurchase tieCtx [tieCand2, tieCand1] = (some tieCand2, .timeWindow) ∧
    tieCand1 ≠ tieCand2 ∧
    inTimeWindow tieCtx tieCand1 = true ∧
    inTimeWindow tieCtx tieCand2 = true ∧
    timeDistMs tieCtx.acquiredAtMs tieCand1 =
      timeDistMs tieCtx.acquiredAtMs tieCand2 ∧
    ([tieCand1, tieCand2] : List MarketplacePurchase).Perm
      [tieCand2, tieCand1] := by
  refine ⟨by decide, by decide, by decide, by decide, by decide, by decide, ?_⟩
  exact List.Perm.swap tieCand2 tieCand1 []

/-- Witness for `C2_time_window_tiebreak`, applied to the two tied
candidates above. -/
theorem C2_time_window_tiebreak_witness :
    2 ≤ (candidatesInWindow tieCtx [tieCand1, tieCand2]).length ∧
    ∃ m, matchPurchase tieCtx [tieCand1, tieCand2] = (some m, .timeWindow) ∧
      m ∈ candidatesInWindow tieCtx [tieCand1, tieCand2] ∧
      (identityMatchesOf tieCtx [tieCand1, tieCand2] ≠ [] →
        m ∈ identityMatchesOf tieCtx [tieCand1, tieCand2] ∧
        ∀ c ∈ identityMatchesOf tieCtx [tieCand1, tieCand2],
          timeDistMs tieCtx.acquiredAtMs m ≤ timeDistMs tieCtx.acquiredAtMs c) ∧
      (identityMatchesOf tieCtx [tieCand1, tieCand2] = [] →
        ∀ c ∈ candidatesInWindow tieCtx [tieCand1, tieCand2],
          timeDistMs tieCtx.acquiredAtMs m ≤ timeDistMs tieCtx.acquiredAtMs c) :=
  ⟨by decide, C2_time_window_tiebreak tieCtx [tieCand1, tieCand2] (by decide)⟩

/-- C1: the matcher never produces an exact-transaction match — the
`txHash` method is unreachable for every context and candidate list —
and on the concrete scenario whose only candidate carries exactly the
acquisition's transaction hash but sits outside the time window, the
matcher returns no match at all instead of the claimed EXACT_TX
winner. -/
theorem C1_exact_tx_never_fires :
    (∀ (ctx : MatchContext) (cands : List MarketplacePurchase),
      (matchPurchase ctx cands).2 ≠ .txHash) ∧
    c1Candidate.txHash = some c1AcqTxHash ∧
    matchPurchase tieCtx [c1Candidate] = (Option.none, .none) := by
  refine ⟨?_, rfl, by decide⟩
  intro ctx cands
  simp only [matchPurchase, Option.isNone_none, Bool.true_and]
  split_ifs <;> simp

/-- The sorted transfer list is sorted by (blockNumber, logIndex) and is
a permutation of the raw logs. -/
theorem sortTransferEvents_sorted (l : List TransferEvent) :
    List.Sorted transferRel (sortTransferEvents l) ∧
      (sortTransferEvents l).Perm l := by
  exact ⟨List.sorted_insertionSort transferRel l,
    List.perm_insertionSort transferRel l⟩

/-- C4: the first half of the claim holds — the selected incoming event
is chronologically first: whenever the head of the incoming-transfer
filter over the sorted logs is `e`, `e` is an incoming raw log and
precedes every incoming raw log in (blockNumber, logIndex) order. The
second half fails: on a pure mint (single transfer from the zero
address, no payment detected), the pipeline classifies the acquisition
as TRANSFER, because the resolver withholds `transferredFrom` for
zero-address origins and the consumer's zero-address test therefore
never fires. -/
theorem C4_first_incoming_and_mint :
    (∀ (rawLogs : List TransferEvent) (walletLower : String)
        (e : TransferEvent),
      ((sortTransferEvents rawLogs).filter
          (fun x => x.toAddr == walletLower)).head? = some e →
      e ∈ rawLogs ∧ e.toAddr = walletLower ∧
        ∀ f ∈ rawLogs, f.toAddr = walletLower → transferRel e f) ∧
    (c4MintLog.fromAddr = zeroAddress ∧
      deriveAcquisitionType
        (getNFTTransferHistory [c4MintLog] "0xwallet"
          (some 1700000000000) Option.none) = .TRANSFER) := by
  constructor
  · intro rawLogs walletLower e he
    obtain ⟨hsorted, hperm⟩ := sortTransferEvents_sorted rawLogs
    have hsf : List.Sorted transferRel
        ((sortTransferEvents rawLogs).filter (fun y => y.toAddr == walletLower)) :=
      List.Pairwise.sublist (List.filter_sublist _) hsorted
    rcases hfl : (sortTransferEvents rawLogs).filter
        (fun y => y.toAddr == walletLower) with _ | ⟨x, xs⟩
    · rw [hfl] at he; simp at he
    · rw [hfl] at he
      have hx : x = e := by simpa using he
      subst hx
      rw [hfl] at hsf
      have hxf : x ∈ (sortTransferEvents rawLogs).filter
          (fun y => y.toAddr == walletLower) := by
        rw [hfl]
        exact List.mem_cons_self x xs
      have hxs : x ∈ sortTransferEvents rawLogs := List.mem_of_mem_filter hxf
      have hxto : x.toAddr = walletLower := by
        have := List.of_mem_filter hxf
        simpa using this
      refine ⟨hperm.mem_iff.mp hxs, hxto, ?_⟩
      intro f hf hfto
      have hff : f ∈ (sortTransferEvents rawLogs).filter
          (fun y => y.toAddr == walletLower) :=
        List.mem_filter.mpr ⟨hperm.mem_iff.mpr hf, by simp [hfto]⟩
      rw [hfl] at hff
      rcases List.mem_cons.mp hff with rfl | hmem
      · exact Or.inr ⟨rfl, le_refl _⟩
      · exact (List.pairwise_cons.mp hsf).1 f hmem
  · exact ⟨rfl, by decide⟩

/-- Witness for `C4_first_incoming_and_mint`: on the singleton mint log
the selected event is the log itself and it trivially precedes every
incoming log. -/
theorem C4_first_incoming_witness :
    c4MintLog ∈ [c4MintLog] ∧ c4MintLog.toAddr = "0xwallet" ∧
      ∀ f ∈ [c4MintLog], f.toAddr = "0xwallet" → transferRel c4MintLog f :=
  C4_first_incoming_and_mint.1 [c4MintLog] "0xwallet" c4MintLog (by decide)

/-!
## Claim theorems: timestamp normalizer
-/

/-- C9: `toIsoString` is total by construction and never reports a
missing timestamp — for null, undefined, an unparseable string, an
invalid Date, a boolean, or an unrecognized object shape it returns the
current wall-clock instant; consequently a purchase record fetched with
none of its three timestamp fields set enters matching carrying the
fetch time as its `purchaseDateIso`. -/
theorem C9_toIsoString_fallback (parse : String → Option Int) (now : Int) :
    toIsoString parse now .nullV = now ∧
    toIsoString parse now .undefV = now ∧
    (∀ s, parse s = Option.none → toIsoString parse now (.strV s) = now) ∧
    toIsoString parse now (.dateV Option.none) = now ∧
    toIsoString parse now .otherObj = now ∧
    (∀ b, toIsoString parse now (.boolV b) = now) ∧
    purchaseDateIsoOf parse now .undefV .undefV .undefV = now := by
  refine ⟨rfl, rfl, ?_, rfl, rfl, ?_, rfl⟩
  · intro s hs
    by_cases hse : s = ""
    · subst hse; rfl
    · simp [toIsoString, jsFalsy, hse, hs]
  · intro b
    cases b <;> rfl

/-- Witness for `C9_toIsoString_fallback`: with a parser that rejects
everything and clock at 42, the unparseable string normalizes to 42. -/
theorem C9_toIsoString_fallback_witness :
    toIsoString (fun _ => Option.none) 42 (.strV "not-a-date") = 42 :=
  (C9_toIsoString_fallback (fun _ => Option.none) 42).2.2.1 "not-a-date" rfl
